import Mathlib

/-!
# Verification of `utu/meta/simple_agent_generator.py`

A shallow embedding of the configuration-generation pipeline
(`SimpleAgentGenerator`) of the Youtu-agent repository, together with proofs
of the specified properties.

The pipeline delegates all cognitive work to external language-model agents;
those agents, the toolkit catalogue and the JSON parser are external
collaborators, so their outcomes enter the embedding as explicit inputs
(`PipelineEnv`).  Everything the Python file itself computes — the reverse
tool index, the grouping of selected tools, the name sanitization, the config
template rendering, the build guard and the streaming snapshots — is
translated directly from the source.
-/

namespace SimpleAgentGen

/-! ## Python string primitives

Models of the Python string operations the source uses: `"\n".join`,
`str.split("\n")`, and `json.dumps` (default options, `ensure_ascii=True`).
Lines are manipulated through `List Char` so that line structure is
amenable to induction. -/

/-- Model of Python `"\n".join` on character lists. -/
def joinNLCore : List (List Char) → List Char
  | [] => []
  | [x] => x
  | x :: xs => x ++ '\n' :: joinNLCore xs

/-- Model of Python `"\n".join(lines)`. -/
def joinNL (lines : List String) : String :=
  String.mk (joinNLCore (lines.map String.data))

/-- Model of Python `s.split("\n")` on character lists: splits at every
newline, keeping empty segments (so it never returns an empty list; a
non-newline character is prepended to the first segment of the split of the
remainder). -/
def splitNLCore : List Char → List (List Char)
  | [] => [[]]
  | c :: rest =>
    if c = '\n' then [] :: splitNLCore rest
    else (c :: (splitNLCore rest).headI) :: (splitNLCore rest).tail

/-- Model of Python `s.split("\n")`. -/
def pySplitNL (s : String) : List String :=
  (splitNLCore s.data).map String.mk

/-- One hexadecimal digit, lowercase (as CPython prints `\uXXXX` escapes). -/
def hexDigit (n : Nat) : Char :=
  Nat.digitChar (n % 16)

/-- Four-hex-digit rendering of a code unit, as in a JSON `\uXXXX` escape. -/
def hex4 (n : Nat) : List Char :=
  [hexDigit (n / 4096), hexDigit (n / 256), hexDigit (n / 16), hexDigit n]

/-- How CPython `json.dumps` (default `ensure_ascii=True`) renders one
character of a string: printable ASCII other than quote and backslash is kept,
the named escapes are used for the usual control characters, every other
character becomes `\uXXXX` (a surrogate pair above U+FFFF). -/
def escapeJsonChar (c : Char) : List Char :=
  if c = '"' then ['\\', '"']
  else if c = '\\' then ['\\', '\\']
  else if c = '\n' then ['\\', 'n']
  else if c = '\t' then ['\\', 't']
  else if c = '\r' then ['\\', 'r']
  else if c = '\x08' then ['\\', 'b']
  else if c = '\x0c' then ['\\', 'f']
  else if 0x20 ≤ c.toNat ∧ c.toNat ≤ 0x7e then [c]
  else if c.toNat < 0x10000 then '\\' :: 'u' :: hex4 c.toNat
  else
    '\\' :: 'u' :: hex4 (0xd800 + (c.toNat - 0x10000) / 0x400) ++
      '\\' :: 'u' :: hex4 (0xdc00 + (c.toNat - 0x10000) % 0x400)

/-- `json.dumps` of a string literal (the quotes included). -/
def jsonDumpsStr (s : String) : List Char :=
  '"' :: (s.data.flatMap escapeJsonChar) ++ ['"']

/-- `json.dumps` of a list of strings: `["a", "b"]`, separator `", "`. -/
def jsonDumpsStrList (l : List String) : List Char :=
  '[' :: joinCommaSep (l.map jsonDumpsStr) ++ [']']
where
  joinCommaSep : List (List Char) → List Char
    | [] => []
    | [x] => x
    | x :: xs => x ++ ',' :: ' ' :: joinCommaSep xs

/-- `json.dumps({'activated_tools': tool_names})` as in `format_config`. -/
def jsonDumpsActivatedTools (tool_names : List String) : String :=
  String.mk ('{' :: '"' :: "activated_tools".data ++ '"' :: ':' :: ' ' ::
    jsonDumpsStrList tool_names ++ ['}'])

/-! ## `add_indented_lines` and the config template -/

/-- `add_indented_lines(lines: list[str], indent)` from the source:
prefix each line with `indent` spaces and join with newlines. -/
def add_indented_lines (lines : List String) (indent : Nat) : String :=
  joinNL (lines.map (fun line => String.mk (List.replicate indent ' ') ++ line))

/-- The `str` overload of `add_indented_lines`: split the string on
newlines first. -/
def add_indented_lines_str (lines : String) (indent : Nat) : String :=
  add_indented_lines (pySplitNL lines) indent

/-- `CONFIG_TEMPLATE.format(...)`: the fixed YAML template of the source with
the four slots substituted. -/
def CONFIG_TEMPLATE_format (agent_name instructions toolkits_includes
    toolkits_configs : String) : String :=
  "\n# @package _global_\ndefaults:\n  - /model/base@model\n" ++
    (toolkits_includes ++
    ("\n  - _self_\n\ntoolkits:\n" ++
    (toolkits_configs ++
    ("\n\nagent:\n  name: " ++ (agent_name ++
    ("\n  instructions: |\n" ++ (instructions ++ "\n")))))))

/-! ## Task state record

Modelled from the spec: `GeneratorTaskRecorder` lives in `utu/meta/common.py`,
which is not part of the sources; the spec describes it as an accumulator with
`requirements`, `selected_tools` (mapping from tool-group name to ordered list
of tool names), `instructions`, `name`, and a completion flag, all initially
unset.  `selected_tools` is an insertion-ordered mapping (a Python
`defaultdict(list)`), embedded as an association list. -/
structure GeneratorTaskRecorder where
  requirements : String := ""
  selected_tools : List (String × List String) := []
  instructions : String := ""
  name : String := ""
  is_complete : Bool := false
  deriving Repr, DecidableEq

/-- `self.output_dir`, relative to `DIR_ROOT`. -/
def output_dir : String := "configs/agents/generated"

/-- `format_config(task_recorder)`: renders the config document and returns
the output path; the file write is modelled by returning the path together
with the written text. -/
def format_config (task_recorder : GeneratorTaskRecorder) : String × String :=
  let toolkits_includes := task_recorder.selected_tools.map
    (fun p => "- /tools/" ++ p.1 ++ "@toolkits." ++ p.1)
  let toolkits_configs := task_recorder.selected_tools.map
    (fun p => p.1 ++ ": " ++ jsonDumpsActivatedTools p.2)
  let config := CONFIG_TEMPLATE_format
    task_recorder.name
    (add_indented_lines_str task_recorder.instructions 4)
    (add_indented_lines toolkits_includes 2)
    (add_indented_lines toolkits_configs 2)
  (output_dir ++ "/" ++ task_recorder.name ++ ".yaml", config)

/-! ## Step 2: toolkit catalogue, reverse index, grouping

`get_toolkits_map` and the toolkits themselves are external collaborators;
the catalogue enters as an input: an ordered list of
`(toolkit_name, tools)` pairs, each tool carrying a name and description. -/

/-- A tool as exposed by `toolkit.get_tools_in_agents()`. -/
structure ToolSpec where
  name : String
  description : String
  deriving Repr, DecidableEq

/-- Python `dict` assignment `d[k] = v`: overwrite in place if the key is
present, otherwise append. -/
def dictInsert (d : List (String × String)) (k v : String) :
    List (String × String) :=
  match d with
  | [] => [(k, v)]
  | (k', v') :: rest =>
    if k' = k then (k, v) :: rest else (k', v') :: dictInsert rest k v

/-- Python `d[k]` read (first matching association; keys are unique by
construction). -/
def dictGet (d : List (String × String)) (k : String) : Option String :=
  match d with
  | [] => none
  | (k', v') :: rest => if k' = k then some v' else dictGet rest k

/-- The reverse index `tool_to_toolkit_name` built in `step2`:
for each toolkit in catalogue order, file every one of its tools under the
toolkit's name (`dict.update` semantics: a later toolkit overwrites an
earlier one on a shared tool name). -/
def tool_to_toolkit_name (toolkits_map : List (String × List ToolSpec)) :
    List (String × String) :=
  toolkits_map.foldl
    (fun d p => p.2.foldl (fun d' t => dictInsert d' t.name p.1) d) []

/-- `defaultdict(list)` access-and-append:
`selected_tools[k].append(v)` — append to the existing list of `k`, or create
the key (at the end, in insertion order) with the singleton list. -/
def ddAppend (d : List (String × List String)) (k v : String) :
    List (String × List String) :=
  match d with
  | [] => [(k, [v])]
  | (k', vs) :: rest =>
    if k' = k then (k', vs ++ [v]) :: rest else (k', vs) :: ddAppend rest k v

/-- The grouping loop of `step2`: for each selected tool name in order, look
it up in the reverse index (a missing name is a `KeyError`, hence `none`) and
append it under its owning group. -/
def groupSelectedAux (idx : List (String × String))
    (d : List (String × List String)) :
    List String → Option (List (String × List String))
  | [] => some d
  | n :: rest =>
    match dictGet idx n with
    | none => none
    | some g => groupSelectedAux idx (ddAppend d g n) rest

/-- Grouping of the parsed selection, starting from the empty mapping. -/
def groupSelected (idx : List (String × String)) (names : List String) :
    Option (List (String × List String)) :=
  groupSelectedAux idx [] names

/-! ## The pipeline

Each step consults an external agent; the agents' final outputs (and, for
step 2, the outcome of `json.loads` on that output — `none` models a raised
`json.JSONDecodeError`) are inputs of the run, collected in `PipelineEnv`. -/

/-- The externally-determined inputs of one pipeline run. -/
structure PipelineEnv where
  /-- Final output of the clarification agent (step 1). -/
  step1_output : String
  /-- `json.loads` applied to the tool-selection agent output:
  `none` when the output is not parseable. -/
  step2_parsed : Option (List String)
  /-- Final output of the instructions-generation agent (step 3). -/
  step3_output : String
  /-- Final output of the name-generation agent (step 4). -/
  step4_output : String
  /-- The toolkit catalogue returned by `get_toolkits_map`. -/
  toolkits_map : List (String × List ToolSpec)
  deriving Repr

/-- Errors that abort the pipeline (uncaught Python exceptions). -/
inductive PipelineError where
  /-- `json.loads` raised on the tool-selection output. -/
  | jsonDecodeError : PipelineError
  /-- `tool_to_toolkit_name[tool_name]` raised `KeyError`. -/
  | keyError : PipelineError
  deriving Repr, DecidableEq

/-- `step1`: store the clarification agent's final output as
`requirements`. -/
def step1 (env : PipelineEnv) (r : GeneratorTaskRecorder) :
    GeneratorTaskRecorder :=
  { r with requirements := env.step1_output }

/-- `step2`: build the reverse index, parse the selection, group it, and
store it; parse and lookup failures propagate. -/
def step2 (env : PipelineEnv) (r : GeneratorTaskRecorder) :
    Except PipelineError GeneratorTaskRecorder :=
  let idx := tool_to_toolkit_name env.toolkits_map
  match env.step2_parsed with
  | none => .error .jsonDecodeError
  | some selected_tool_names =>
    match groupSelected idx selected_tool_names with
    | none => .error .keyError
    | some selected_tools => .ok { r with selected_tools := selected_tools }

/-- `step3`: store the instruction agent's final output verbatim. -/
def step3 (env : PipelineEnv) (r : GeneratorTaskRecorder) :
    GeneratorTaskRecorder :=
  { r with instructions := env.step3_output }

/-- The name sanitization of `step4`: when the generated name is longer than
50 characters or contains a space, warn (second component `true`) and store
the first 50 characters with spaces replaced by underscores. -/
def sanitizeName (name : String) : String × Bool :=
  if 50 < name.length ∨ ' ' ∈ name.data then
    (String.mk ((name.data.take 50).map fun c => if c = ' ' then '_' else c),
      true)
  else (name, false)

/-- `step4`: store the (possibly sanitized) generated name. -/
def step4 (env : PipelineEnv) (r : GeneratorTaskRecorder) :
    GeneratorTaskRecorder :=
  { r with name := (sanitizeName env.step4_output).1 }

/-- `run`: build (no observable state here), steps 1→4 in order, then
`format_config`.  Returns the final record, the output path and the written
document; an uncaught exception yields `Except.error`. -/
def runPipeline (env : PipelineEnv) :
    Except PipelineError (GeneratorTaskRecorder × String × String) :=
  let r1 := step1 env {}
  match step2 env r1 with
  | .error e => .error e
  | .ok r2 =>
    let r3 := step3 env r2
    let r4 := step4 env r3
    let out := format_config r4
    .ok (r4, out.1, out.2)

/-! ## Background mode

`run_streamed` creates the record, schedules `_start_streaming` as one
asyncio task and returns the record at once.  `_start_streaming` runs the
same four steps, then `format_config`, then sets the completion flag.  All
of this is one cooperatively-scheduled task mutating the record between
suspension points, so the observable behaviour is the sequence of record
snapshots at those boundaries: the snapshot handed back by `run_streamed`,
one after each step, one after formatting (which leaves the record
unchanged), and the final one with the flag set.  If an exception aborts
the task, no further snapshot appears and the flag is never set. -/

/-- The successive observable record states of background mode. -/
def streamSnapshots (env : PipelineEnv) : List GeneratorTaskRecorder :=
  let r0 : GeneratorTaskRecorder := {}
  let r1 := step1 env r0
  r0 :: r1 ::
    match step2 env r1 with
    | .error _ => []
    | .ok r2 =>
      let r3 := step3 env r2
      let r4 := step4 env r3
      [r2, r3, r4, { r4 with is_complete := true }]

/-! ## `build`

`build` constructs the four agents once and is guarded by `_initialized`.
The agents themselves are external objects; what matters for the build
contract is their identity, modelled by opaque reference tokens supplied by
the environment (a fresh quadruple per call, used only when the guard lets
construction happen). -/

/-- An opaque reference to a constructed `SimpleAgent`. -/
structure SimpleAgentRef where
  id : Nat
  deriving Repr, DecidableEq

/-- The agent-holding state of a `SimpleAgentGenerator`. -/
structure GeneratorAgents where
  initialized : Bool := false
  agent_1 : Option SimpleAgentRef := none
  agent_2 : Option SimpleAgentRef := none
  agent_3 : Option SimpleAgentRef := none
  agent_4 : Option SimpleAgentRef := none
  deriving Repr, DecidableEq

/-- `build`: return unchanged when already initialized, otherwise construct
the four agents (`fresh` are the references the constructors would
produce) and set the guard. -/
def build (s : GeneratorAgents)
    (fresh : SimpleAgentRef × SimpleAgentRef × SimpleAgentRef × SimpleAgentRef) :
    GeneratorAgents :=
  if s.initialized then s
  else
    { initialized := true
      agent_1 := some fresh.1
      agent_2 := some fresh.2.1
      agent_3 := some fresh.2.2.1
      agent_4 := some fresh.2.2.2 }

/-! ## Helper definitions used by the statements -/

/-- Reading `selected_tools[g]` on the association-list embedding of the
`defaultdict`: the list filed under `g`, or `[]` when `g` is absent. -/
def ddGet (d : List (String × List String)) (g : String) : List String :=
  match d with
  | [] => []
  | (k, vs) :: rest => if k = g then vs else ddGet rest g

/-- The keys of an association list, in order. -/
def keysOf (d : List (String × List String)) : List String :=
  d.map Prod.fst

/-- The lines of a rendered document (Python `text.split("\n")`),
as character lists. -/
def linesOfStr (s : String) : List (List Char) :=
  splitNLCore s.data

/-- The lines a template slot contributes: an empty joined list still
occupies one (empty) line of the template. -/
def slotLines (ls : List String) : List String :=
  match ls with
  | [] => [""]
  | _ => ls

/-- The counterpart of `slotLines` on character lists. -/
def slotLinesData (ls : List (List Char)) : List (List Char) :=
  match ls with
  | [] => [[]]
  | _ => ls

/-- The include line the template carries for a selected tool group, as it
appears (2-space indented) in the rendered document. -/
def includeLineOf (g : String) : String :=
  "  - /tools/" ++ g ++ "@toolkits." ++ g

/-- The per-group activated-tools literal line of the rendered document. -/
def configLineOf (p : String × List String) : String :=
  "  " ++ p.1 ++ ": " ++ jsonDumpsActivatedTools p.2

/-- The `agent.name` line of the rendered document. -/
def agentNameLineOf (n : String) : String :=
  "  name: " ++ n

/-- The full line decomposition of the document `format_config` renders:
the fixed template lines with the include block, the config block, the name
and the indented instruction lines spliced in (an empty block still occupies
the template slot's line). -/
def documentLines (rec : GeneratorTaskRecorder) : List String :=
  [""] ++ ["# @package _global_", "defaults:", "  - /model/base@model"] ++
    slotLines (rec.selected_tools.map fun p => includeLineOf p.1) ++
    ["  - _self_", "", "toolkits:"] ++
    slotLines (rec.selected_tools.map configLineOf) ++
    ["", "agent:", agentNameLineOf rec.name, "  instructions: |"] ++
    (pySplitNL rec.instructions).map (fun l => "    " ++ l) ++
    [""]

/-- A well-formed group name: nonempty-or-not, all lowercase ASCII letters
(true of the six available toolkit names `search`, `document`, `image`,
`audio`, `bash`, `tabular`). -/
def isLowerName (s : String) : Prop :=
  ∀ c ∈ s.data, c.isLower = true

instance (s : String) : Decidable (isLowerName s) := by
  unfold isLowerName; infer_instance

/-- A concrete environment whose tool-selection output does not parse. -/
def sampleEnvBad : PipelineEnv where
  step1_output := "req text"
  step2_parsed := none
  step3_output := "Do the thing"
  step4_output := "searcher"
  toolkits_map :=
    [ ("search", [{ name := "web_search", description := "search the web" }]) ]

/-- A concrete environment whose selection contains an unknown tool name. -/
def sampleEnvMissing : PipelineEnv where
  step1_output := "req text"
  step2_parsed := some ["nonexistent_tool"]
  step3_output := "Do the thing"
  step4_output := "searcher"
  toolkits_map :=
    [ ("search", [{ name := "web_search", description := "search the web" }]) ]

/-- The record produced by the full sample run. -/
def sampleRecorder4 : GeneratorTaskRecorder where
  requirements := "req text"
  selected_tools := [("search", ["web_search", "web_search"])]
  instructions := "Do the thing"
  name := "searcher"

/-- A concrete environment realizing the round-trip scenario of the spec
(with a duplicated selection, to exercise multiplicity). -/
def sampleEnv : PipelineEnv where
  step1_output := "req text"
  step2_parsed := some ["web_search", "web_search"]
  step3_output := "Do the thing"
  step4_output := "searcher"
  toolkits_map :=
    [ ("search", [{ name := "web_search", description := "search the web" }]),
      ("document", [{ name := "pdf_reader", description := "read pdfs" }]) ]

/-- The record produced by steps 1–2 on `sampleEnv`. -/
def sampleRecorder2 : GeneratorTaskRecorder where
  requirements := "req text"
  selected_tools := [("search", ["web_search", "web_search"])]

/-! # Lemmas about the step-2 grouping -/

theorem ddGet_ddAppend (d : List (String × List String)) (k v g : String) :
    ddGet (ddAppend d k v) g =
      if g = k then ddGet d g ++ [v] else ddGet d g := by
  induction d with
  | nil =>
    simp only [ddAppend, ddGet]
    by_cases h : k = g
    · subst h; simp
    · have h' : ¬ g = k := fun hh => h hh.symm
      simp [h, h']
  | cons q rest ih =>
    obtain ⟨k', vs⟩ := q
    by_cases h1 : k' = k
    · subst h1
      by_cases h2 : g = k'
      · subst h2; simp [ddAppend, ddGet]
      · have h2' : ¬ k' = g := fun hh => h2 hh.symm
        simp [ddAppend, ddGet, h2, h2']
    · have h1' : ¬ k = k' := fun hh => h1 hh.symm
      by_cases h2 : k' = g
      · subst h2
        simp [ddAppend, ddGet, h1, h1']
      · have h2' : ¬ g = k' := fun hh => h2 hh.symm
        simp [ddAppend, ddGet, h1, h1', h2, h2', ih]

theorem keysOf_ddAppend (d : List (String × List String)) (k v : String) :
    keysOf (ddAppend d k v) =
      if k ∈ keysOf d then keysOf d else keysOf d ++ [k] := by
  induction d with
  | nil => simp [ddAppend, keysOf]
  | cons q rest ih =>
    obtain ⟨k', vs⟩ := q
    by_cases h1 : k' = k
    · subst h1; simp [ddAppend, keysOf]
    · simp only [ddAppend, if_neg h1, keysOf, List.map_cons, List.mem_cons]
      have hne : ¬ k = k' := fun hh => h1 hh.symm
      by_cases h2 : k ∈ keysOf rest
      · simp [keysOf] at h2
        simp [h2, keysOf] at ih
        simp [h2, hne, keysOf, ih]
      · simp [keysOf] at h2
        simp [h2, keysOf] at ih
        simp [h2, hne, keysOf, ih]

theorem keysOf_ddAppend_nodup (d : List (String × List String)) (k v : String)
    (h : (keysOf d).Nodup) : (keysOf (ddAppend d k v)).Nodup := by
  rw [keysOf_ddAppend]
  by_cases hm : k ∈ keysOf d
  · simpa [hm] using h
  · simp only [if_neg hm, List.nodup_append]
    refine ⟨h, List.nodup_singleton k, ?_⟩
    intro a ha hb
    simp only [List.mem_singleton] at hb
    subst hb
    exact hm ha

theorem ddGet_of_mem (d : List (String × List String))
    (p : String × List String) (hmem : p ∈ d) (hnd : (keysOf d).Nodup) :
    ddGet d p.1 = p.2 := by
  induction d with
  | nil => cases hmem
  | cons q rest ih =>
    have hnd2 : q.1 ∉ List.map Prod.fst rest ∧ (List.map Prod.fst rest).Nodup := by
      simp only [keysOf, List.map_cons] at hnd
      exact List.nodup_cons.mp hnd
    rcases List.mem_cons.mp hmem with h | h
    · subst h; simp [ddGet]
    · have hq : ¬ q.1 = p.1 := by
        intro he
        exact hnd2.1 (he ▸ List.mem_map.mpr ⟨p, h, rfl⟩)
      have hnd' : (keysOf rest).Nodup := hnd2.2
      simp [ddGet, hq, ih h hnd']

theorem ddGet_of_not_mem_keys (d : List (String × List String)) (g : String)
    (h : g ∉ keysOf d) : ddGet d g = [] := by
  induction d with
  | nil => rfl
  | cons q rest ih =>
    simp only [keysOf, List.map_cons, List.mem_cons, not_or] at h
    have hq : ¬ q.1 = g := fun hh => h.1 hh.symm
    have hrest : g ∉ keysOf rest := by simpa [keysOf] using h.2
    simp [ddGet, hq, ih hrest]

theorem groupSelectedAux_ddGet (idx : List (String × String)) :
    ∀ (names : List String) (d st : List (String × List String)),
      groupSelectedAux idx d names = some st →
      ∀ g, ddGet st g =
        ddGet d g ++ names.filter (fun n => dictGet idx n == some g) := by
  intro names
  induction names with
  | nil =>
    intro d st h g
    simp only [groupSelectedAux, Option.some.injEq] at h
    subst h; simp
  | cons n rest ih =>
    intro d st h g
    simp only [groupSelectedAux] at h
    cases hdg : dictGet idx n with
    | none => rw [hdg] at h; cases h
    | some gn =>
      rw [hdg] at h
      have hrec := ih (ddAppend d gn n) st h g
      rw [hrec, ddGet_ddAppend]
      by_cases hg : g = gn
      · subst hg
        simp [List.filter_cons, hdg]
      · have hg' : ¬ gn = g := fun hh => hg hh.symm
        have hb : ¬ (dictGet idx n == some g) = true := by simp [hdg, hg']
        simp [List.filter_cons, hb, hg]

theorem groupSelectedAux_nodup (idx : List (String × String)) :
    ∀ (names : List String) (d st : List (String × List String)),
      groupSelectedAux idx d names = some st →
      (keysOf d).Nodup → (keysOf st).Nodup := by
  intro names
  induction names with
  | nil =>
    intro d st h hd
    simp only [groupSelectedAux, Option.some.injEq] at h
    subst h; exact hd
  | cons n rest ih =>
    intro d st h hd
    simp only [groupSelectedAux] at h
    cases hdg : dictGet idx n with
    | none => rw [hdg] at h; cases h
    | some gn =>
      rw [hdg] at h
      exact ih (ddAppend d gn n) st h (keysOf_ddAppend_nodup d gn n hd)

theorem groupSelectedAux_none (idx : List (String × String)) :
    ∀ (names : List String) (d : List (String × List String)) (n : String),
      n ∈ names → dictGet idx n = none →
      groupSelectedAux idx d names = none := by
  intro names
  induction names with
  | nil => intro d n h; cases h
  | cons m rest ih =>
    intro d n hmem hnone
    rcases List.mem_cons.mp hmem with h | h
    · subst h; simp [groupSelectedAux, hnone]
    · simp only [groupSelectedAux]
      cases hdg : dictGet idx m with
      | none => rfl
      | some gm => exact ih (ddAppend d gm m) n h hnone

theorem step2_ok_shape (env : PipelineEnv) (r r' : GeneratorTaskRecorder)
    (h : step2 env r = Except.ok r') :
    ∃ names st, env.step2_parsed = some names ∧
      groupSelected (tool_to_toolkit_name env.toolkits_map) names = some st ∧
      r' = { r with selected_tools := st } := by
  cases hp : env.step2_parsed with
  | none =>
    simp only [step2, hp] at h
    exact Except.noConfusion h
  | some names =>
    cases hg : groupSelected (tool_to_toolkit_name env.toolkits_map) names with
    | none =>
      simp only [step2, hp, hg] at h
      exact Except.noConfusion h
    | some st =>
      simp only [step2, hp, hg, Except.ok.injEq] at h
      exact ⟨names, st, rfl, hg, h.symm⟩

/-! # Lemmas about line splitting and joining -/

theorem splitNLCore_ne_nil (cs : List Char) : splitNLCore cs ≠ [] := by
  induction cs with
  | nil => simp [splitNLCore]
  | cons c rest ih =>
    simp only [splitNLCore]
    by_cases h : c = '\n'
    · simp [h]
    · simp [h]

theorem splitNLCore_no_newline (cs : List Char) :
    ∀ l ∈ splitNLCore cs, '\n' ∉ l := by
  induction cs with
  | nil =>
    intro l hl
    simp only [splitNLCore, List.mem_singleton] at hl
    subst hl; simp
  | cons c rest ih =>
    intro l hl
    simp only [splitNLCore] at hl
    by_cases h : c = '\n'
    · rw [if_pos h] at hl
      rcases List.mem_cons.mp hl with he | he
      · subst he; simp
      · exact ih l he
    · rw [if_neg h] at hl
      cases hs : splitNLCore rest with
      | nil => exact absurd hs (splitNLCore_ne_nil rest)
      | cons m ms =>
        rw [hs] at hl
        simp only [List.headI, List.tail_cons] at hl
        rcases List.mem_cons.mp hl with he | he
        · subst he
          intro hmem
          rcases List.mem_cons.mp hmem with he2 | he2
          · exact h he2.symm
          · exact ih m (hs ▸ List.mem_cons_self m ms) he2
        · exact ih l (hs ▸ List.mem_cons_of_mem m he)

theorem splitNLCore_of_no_newline (cs : List Char) (h : '\n' ∉ cs) :
    splitNLCore cs = [cs] := by
  induction cs with
  | nil => rfl
  | cons c rest ih =>
    simp only [List.mem_cons, not_or] at h
    have hc : ¬ c = '\n' := fun hh => h.1 hh.symm
    simp [splitNLCore, hc, ih h.2]

theorem splitNLCore_append_line (l rest : List Char) (h : '\n' ∉ l) :
    splitNLCore (l ++ '\n' :: rest) = l :: splitNLCore rest := by
  induction l with
  | nil => simp [splitNLCore]
  | cons c cl ih =>
    simp only [List.mem_cons, not_or] at h
    have hc : ¬ c = '\n' := fun hh => h.1 hh.symm
    simp [List.cons_append, splitNLCore, hc, ih h.2]

theorem splitNLCore_join_slot (ls : List (List Char)) (rest : List Char)
    (h : ∀ l ∈ ls, '\n' ∉ l) :
    splitNLCore (joinNLCore ls ++ '\n' :: rest) =
      slotLinesData ls ++ splitNLCore rest := by
  induction ls with
  | nil => simp [joinNLCore, slotLinesData, splitNLCore]
  | cons x xs ih =>
    cases xs with
    | nil =>
      simp only [joinNLCore, slotLinesData]
      rw [splitNLCore_append_line x rest (h x (List.mem_cons_self x []))]
      rfl
    | cons y ys =>
      have hx : '\n' ∉ x := h x (List.mem_cons_self x (y :: ys))
      have hrest : ∀ l ∈ y :: ys, '\n' ∉ l :=
        fun l hl => h l (List.mem_cons_of_mem x hl)
      simp only [joinNLCore, slotLinesData]
      rw [List.append_assoc, List.cons_append,
        splitNLCore_append_line x _ hx, ih hrest]
      rfl

theorem map_data_slotLines (ls : List String) :
    (slotLines ls).map String.data = slotLinesData (ls.map String.data) := by
  cases ls <;> rfl

/-! # Lemmas about the JSON rendering -/

theorem hexDigit_ne_newline (n : Nat) : hexDigit n ≠ '\n' := by
  unfold hexDigit
  have hlt : n % 16 < 16 := Nat.mod_lt _ (by decide)
  have hall : ∀ m, m < 16 → Nat.digitChar m ≠ '\n' := by decide
  exact hall (n % 16) hlt

theorem escapeJsonChar_no_newline (c : Char) : '\n' ∉ escapeJsonChar c := by
  unfold escapeJsonChar
  split_ifs with h1 h2 h3 h4 h5 h6 h7 h8 h9
  · decide
  · decide
  · decide
  · decide
  · decide
  · decide
  · decide
  · intro hm
    rw [List.mem_singleton] at hm
    have h10 : c.toNat = 10 := by rw [← hm]; rfl
    obtain ⟨hlo, _⟩ := h8
    omega
  · intro hm
    simp [hex4] at hm
    rcases hm with h | h | h | h
    all_goals exact hexDigit_ne_newline _ h.symm
  · intro hm
    simp [hex4] at hm
    rcases hm with h | h | h | h | h | h | h | h
    all_goals exact hexDigit_ne_newline _ h.symm

theorem jsonDumpsStr_no_newline (s : String) : '\n' ∉ jsonDumpsStr s := by
  intro hm
  simp [jsonDumpsStr] at hm
  obtain ⟨c, _, hc⟩ := hm
  exact escapeJsonChar_no_newline c hc

theorem joinCommaSep_no_newline (xs : List (List Char))
    (h : ∀ x ∈ xs, '\n' ∉ x) : '\n' ∉ jsonDumpsStrList.joinCommaSep xs := by
  induction xs with
  | nil => simp [jsonDumpsStrList.joinCommaSep]
  | cons x xs ih =>
    cases xs with
    | nil =>
      simpa [jsonDumpsStrList.joinCommaSep] using
        h x (List.mem_cons_self x [])
    | cons y ys =>
      intro hm
      simp [jsonDumpsStrList.joinCommaSep] at hm
      rcases hm with hm | hm
      · exact h x (List.mem_cons_self x (y :: ys)) hm
      · exact ih (fun l hl => h l (List.mem_cons_of_mem x hl)) hm

theorem jsonDumpsStrList_no_newline (ts : List String) :
    '\n' ∉ jsonDumpsStrList ts := by
  intro hm
  simp [jsonDumpsStrList] at hm
  refine joinCommaSep_no_newline (ts.map jsonDumpsStr) ?_ hm
  intro x hx
  obtain ⟨s, _, hs⟩ := List.mem_map.mp hx
  exact hs ▸ jsonDumpsStr_no_newline s

theorem jsonDumpsActivatedTools_no_newline (ts : List String) :
    '\n' ∉ (jsonDumpsActivatedTools ts).data := by
  intro hm
  simp [jsonDumpsActivatedTools] at hm
  exact jsonDumpsStrList_no_newline ts hm

theorem jsonDumpsActivatedTools_has_space (ts : List String) :
    ' ' ∈ (jsonDumpsActivatedTools ts).data := by
  simp [jsonDumpsActivatedTools]

/-! # The line decomposition of the rendered document -/

theorem splitNLCore_cons_newline (rest : List Char) :
    splitNLCore ('\n' :: rest) = [] :: splitNLCore rest := by
  simp [splitNLCore]

theorem slotLinesData_of_ne_nil (ls : List (List Char)) (h : ls ≠ []) :
    slotLinesData ls = ls := by
  cases ls with
  | nil => exact absurd rfl h
  | cons x xs => rfl

theorem pySplitNL_ne_nil (s : String) : pySplitNL s ≠ [] := by
  simp [pySplitNL, splitNLCore_ne_nil]

/-- The document `format_config` renders splits on newlines into exactly the
lines of `documentLines`, provided the agent name and the group keys contain
no newline (tool names need no hypothesis: the JSON escaping removes their
newlines). -/
theorem splitNLCore_append2_line (a b rest : List Char)
    (ha : '\n' ∉ a) (hb : '\n' ∉ b) :
    splitNLCore (a ++ (b ++ '\n' :: rest)) = (a ++ b) :: splitNLCore rest := by
  rw [← List.append_assoc]
  refine splitNLCore_append_line (a ++ b) rest ?_
  intro hm
  rcases List.mem_append.mp hm with h | h
  · exact ha h
  · exact hb h

theorem linesOf_format_config (rec : GeneratorTaskRecorder)
    (hname : '\n' ∉ rec.name.data)
    (hkeys : ∀ p ∈ rec.selected_tools, '\n' ∉ p.1.data) :
    linesOfStr (format_config rec).2 = (documentLines rec).map String.data := by
  have hmk : ∀ l : List Char, (String.mk l).data = l := fun l => rfl
  have hincl : (add_indented_lines
      (rec.selected_tools.map fun p => "- /tools/" ++ p.1 ++ "@toolkits." ++ p.1) 2).data
      = joinNLCore (rec.selected_tools.map (fun p => (includeLineOf p.1).data)) := by
    simp only [add_indented_lines, joinNL, hmk, List.map_map]
    congr 1
  have hcfg : (add_indented_lines
      (rec.selected_tools.map fun p => p.1 ++ ": " ++ jsonDumpsActivatedTools p.2) 2).data
      = joinNLCore (rec.selected_tools.map (fun p => (configLineOf p).data)) := by
    simp only [add_indented_lines, joinNL, hmk, List.map_map]
    congr 1
  have hinstr : (add_indented_lines_str rec.instructions 4).data
      = joinNLCore ((pySplitNL rec.instructions).map (fun l => ("    " ++ l).data)) := by
    simp only [add_indented_lines_str, add_indented_lines, joinNL, hmk,
      List.map_map]
    congr 1
  have hInclNN : ∀ l ∈ rec.selected_tools.map (fun p => (includeLineOf p.1).data),
      '\n' ∉ l := by
    intro l hl
    obtain ⟨p, hp, hpe⟩ := List.mem_map.mp hl
    subst hpe
    intro hm
    simp [includeLineOf, String.data_append] at hm
    exact hkeys p hp hm
  have hCfgNN : ∀ l ∈ rec.selected_tools.map (fun p => (configLineOf p).data),
      '\n' ∉ l := by
    intro l hl
    obtain ⟨p, hp, hpe⟩ := List.mem_map.mp hl
    subst hpe
    intro hm
    simp [configLineOf, String.data_append] at hm
    rcases hm with hm | hm
    · exact hkeys p hp hm
    · exact jsonDumpsActivatedTools_no_newline p.2 hm
  have hInstrNN : ∀ l ∈ (pySplitNL rec.instructions).map (fun l => ("    " ++ l).data),
      '\n' ∉ l := by
    intro l hl
    obtain ⟨m, hm, hme⟩ := List.mem_map.mp hl
    subst hme
    obtain ⟨cs, hcs, hcse⟩ := List.mem_map.mp hm
    subst hcse
    intro hx
    simp [String.data_append] at hx
    exact splitNLCore_no_newline _ cs hcs hx
  have hdata : (format_config rec).2.data =
      ("\n# @package _global_\ndefaults:\n  - /model/base@model\n" : String).data ++
      ((add_indented_lines (rec.selected_tools.map fun p =>
          "- /tools/" ++ p.1 ++ "@toolkits." ++ p.1) 2).data ++
      (("\n  - _self_\n\ntoolkits:\n" : String).data ++
      ((add_indented_lines (rec.selected_tools.map fun p =>
          p.1 ++ ": " ++ jsonDumpsActivatedTools p.2) 2).data ++
      (("\n\nagent:\n  name: " : String).data ++
      (rec.name.data ++
      (("\n  instructions: |\n" : String).data ++
      ((add_indented_lines_str rec.instructions 4).data ++
      ("\n" : String).data))))))) := rfl
  have E1 : ∀ X : List Char,
      ("\n# @package _global_\ndefaults:\n  - /model/base@model\n" : String).data ++ X =
      '\n' :: ("# @package _global_".data ++ '\n' :: ("defaults:".data ++ '\n' ::
        ("  - /model/base@model".data ++ '\n' :: X))) := fun X => rfl
  have E2 : ∀ X : List Char,
      ("\n  - _self_\n\ntoolkits:\n" : String).data ++ X =
      '\n' :: ("  - _self_".data ++ '\n' :: '\n' :: ("toolkits:".data ++ '\n' :: X)) :=
    fun X => rfl
  have E3 : ∀ X : List Char,
      ("\n\nagent:\n  name: " : String).data ++ X =
      '\n' :: '\n' :: ("agent:".data ++ '\n' :: ("  name: ".data ++ X)) := fun X => rfl
  have E4 : ∀ X : List Char,
      ("\n  instructions: |\n" : String).data ++ X =
      '\n' :: ("  instructions: |".data ++ '\n' :: X) := fun X => rfl
  have E5 : ("\n" : String).data = ['\n'] := rfl
  unfold linesOfStr
  rw [hdata, hincl, hcfg, hinstr, E5, E1, E2, E3, E4]
  rw [splitNLCore_cons_newline]
  rw [splitNLCore_append_line "# @package _global_".data _ (by decide)]
  rw [splitNLCore_append_line "defaults:".data _ (by decide)]
  rw [splitNLCore_append_line "  - /model/base@model".data _ (by decide)]
  rw [splitNLCore_join_slot _ _ hInclNN]
  rw [splitNLCore_append_line "  - _self_".data _ (by decide)]
  rw [splitNLCore_cons_newline]
  rw [splitNLCore_append_line "toolkits:".data _ (by decide)]
  rw [splitNLCore_join_slot _ _ hCfgNN]
  rw [splitNLCore_cons_newline]
  rw [splitNLCore_append_line "agent:".data _ (by decide)]
  rw [splitNLCore_append2_line "  name: ".data rec.name.data _ (by decide) hname]
  rw [splitNLCore_append_line "  instructions: |".data _ (by decide)]
  rw [splitNLCore_join_slot _ _ hInstrNN]
  have hinstr_ne : (pySplitNL rec.instructions).map (fun l => ("    " ++ l).data) ≠ [] := by
    intro hnil
    exact pySplitNL_ne_nil rec.instructions (List.map_eq_nil_iff.mp hnil)
  rw [slotLinesData_of_ne_nil _ hinstr_ne]
  simp [documentLines, map_data_slotLines, List.map_map, Function.comp_def,
    agentNameLineOf, includeLineOf, configLineOf, String.data_append,
    splitNLCore, List.append_assoc]

/-! # Helpers for the document-shape claim -/

theorem count_slotLinesData (x : List Char) (X : List (List Char))
    (hx : x ≠ []) : (slotLinesData X).count x = X.count x := by
  cases X with
  | nil =>
    have hne : ¬ (([] : List Char) == x) = true := by
      simp only [beq_iff_eq]
      exact fun h => hx h.symm
    simp [slotLinesData, List.count_singleton, hne]
  | cons a t => rfl

theorem append_sep_inj (sep : Char) (a b ra rb : List Char)
    (hsep : sep.isLower = false)
    (ha : ∀ c ∈ a, c.isLower = true) (hb : ∀ c ∈ b, c.isLower = true)
    (h : a ++ sep :: ra = b ++ sep :: rb) : a = b ∧ ra = rb := by
  induction a generalizing b with
  | nil =>
    cases b with
    | nil => simpa using h
    | cons y yb =>
      simp only [List.nil_append, List.cons_append] at h
      injection h with h1 h2
      have hy := hb y (List.mem_cons_self y yb)
      rw [← h1, hsep] at hy
      cases hy
  | cons x xa ih =>
    cases b with
    | nil =>
      simp only [List.cons_append, List.nil_append] at h
      injection h with h1 h2
      have hx := ha x (List.mem_cons_self x xa)
      rw [h1, hsep] at hx
      cases hx
    | cons y yb =>
      simp only [List.cons_append] at h
      injection h with h1 h2
      obtain ⟨hab, hr⟩ := ih yb (fun c hc => ha c (List.mem_cons_of_mem x hc))
        (fun c hc => hb c (List.mem_cons_of_mem y hc)) h2
      exact ⟨by rw [h1, hab], hr⟩

theorem includeLineOf_data_injective :
    Function.Injective (fun g : String => (includeLineOf g).data) := by
  intro g k h
  have hshape : ∀ m : String, (includeLineOf m).data =
      ' ' :: ' ' :: '-' :: ' ' :: '/' :: 't' :: 'o' :: 'o' :: 'l' :: 's' :: '/' ::
        (m.data ++ '@' :: 't' :: 'o' :: 'o' :: 'l' :: 'k' :: 'i' :: 't' :: 's' ::
          '.' :: m.data) := fun m => by
    simp [includeLineOf, String.data_append, List.append_assoc]
  simp only [hshape] at h
  simp only [List.cons.injEq, true_and] at h
  have hlen : g.data.length = k.data.length := by
    have hl := congrArg List.length h
    simp only [List.length_append, List.length_cons] at hl
    omega
  exact String.ext (List.append_inj h hlen).1

theorem count_map_includeLineOf (keys : List String) (g : String) :
    (keys.map (fun k => (includeLineOf k).data)).count (includeLineOf g).data =
      keys.count g := by
  induction keys with
  | nil => rfl
  | cons k t ih =>
    simp only [List.map_cons, List.count_cons, ih]
    congr 1
    by_cases h : k = g
    · subst h; simp
    · have hne : ¬ (includeLineOf k).data = (includeLineOf g).data :=
        fun he => h (includeLineOf_data_injective he)
      simp [h, hne]

theorem count_keys_of_nodup (keys : List String) (g : String)
    (h : keys.Nodup) : keys.count g = if g ∈ keys then 1 else 0 := by
  induction keys with
  | nil => simp
  | cons k t ih =>
    obtain ⟨hk, ht⟩ := List.nodup_cons.mp h
    simp only [List.count_cons, ih ht, List.mem_cons]
    by_cases hg : k = g
    · subst hg
      have : k ∉ t := hk
      simp [this]
    · have hg2 : ¬ g = k := fun hh => hg hh.symm
      simp [hg, hg2]

/-! # Claim theorems (grouping, errors, sanitization, build, frame) -/

/-- C1: after a successful step 2, every tool name filed in `selected_tools`
belongs, according to the reverse index built from the available toolkits at
step-2 time, to the very group it is filed under. -/
theorem C1_selected_tools_owner (env : PipelineEnv)
    (r r' : GeneratorTaskRecorder) (h : step2 env r = Except.ok r') :
    ∀ p ∈ r'.selected_tools, ∀ t ∈ p.2,
      dictGet (tool_to_toolkit_name env.toolkits_map) t = some p.1 := by
  obtain ⟨names, st, hp, hg, hr⟩ := step2_ok_shape env r r' h
  subst hr
  intro p hpmem t ht
  have hnd : (keysOf st).Nodup :=
    groupSelectedAux_nodup _ names [] st hg (by simp [keysOf])
  have hval := groupSelectedAux_ddGet _ names [] st hg p.1
  rw [ddGet_of_mem st p hpmem hnd] at hval
  simp only [ddGet, List.nil_append] at hval
  rw [hval] at ht
  have hpt := List.of_mem_filter ht
  simpa using hpt

/-- Witness for C1 at the sample environment. -/
theorem C1_selected_tools_owner_witness :
    dictGet (tool_to_toolkit_name sampleEnv.toolkits_map) "web_search" =
      some "search" :=
  C1_selected_tools_owner sampleEnv (step1 sampleEnv {}) sampleRecorder2 rfl
    ("search", ["web_search", "web_search"]) (by simp [sampleRecorder2])
    "web_search" (by simp)

/-- C3: the step-4 name sanitization: an over-long or space-containing
generated name is stored as its first 50 characters with spaces replaced by
underscores, with a warning; otherwise it is stored unchanged without
warning.  Either way the stored name has length at most 50 and no spaces. -/
theorem C3_sanitizeName_spec (name : String) :
    ((50 < name.length ∨ ' ' ∈ name.data) →
      sanitizeName name =
        (String.mk ((name.data.take 50).map fun c => if c = ' ' then '_' else c),
          true)) ∧
    (¬ (50 < name.length ∨ ' ' ∈ name.data) →
      sanitizeName name = (name, false)) ∧
    (sanitizeName name).1.length ≤ 50 ∧
    ' ' ∉ (sanitizeName name).1.data := by
  by_cases h : 50 < name.length ∨ ' ' ∈ name.data
  · have he : sanitizeName name =
        (String.mk ((name.data.take 50).map fun c => if c = ' ' then '_' else c),
          true) := by
      unfold sanitizeName; rw [if_pos h]
    refine ⟨fun _ => he, fun hn => absurd h hn, ?_, ?_⟩
    · rw [he]
      show ((name.data.take 50).map fun c => if c = ' ' then '_' else c).length ≤ 50
      rw [List.length_map, List.length_take]
      exact Nat.min_le_left _ _
    · rw [he]
      intro hm
      have hm' : ' ' ∈ (name.data.take 50).map fun c => if c = ' ' then '_' else c :=
        hm
      obtain ⟨c, _, he2⟩ := List.mem_map.mp hm'
      by_cases hcs : c = ' '
      · rw [if_pos hcs] at he2; exact absurd he2 (by decide)
      · rw [if_neg hcs] at he2; exact hcs he2
  · have he : sanitizeName name = (name, false) := by
      unfold sanitizeName; rw [if_neg h]
    have hno := h
    push_neg at h
    exact ⟨fun hx => absurd hx hno, fun _ => he,
      by rw [he]; exact h.1, by rw [he]; exact h.2⟩

/-- Witness for C3 at the short name of the spec scenario. -/
theorem C3_sanitizeName_spec_witness :
    (sanitizeName "shortname").1.length ≤ 50 ∧
    ' ' ∉ (sanitizeName "shortname").1.data :=
  ⟨(C3_sanitizeName_spec "shortname").2.2.1,
    (C3_sanitizeName_spec "shortname").2.2.2⟩

/-- C4: when the tool-selection output fails to parse (`json.loads` raises),
the run propagates the parse error: no fallback is attempted and no
configuration document is produced (`format_config` is never reached). -/
theorem C4_parse_failure_aborts (env : PipelineEnv)
    (h : env.step2_parsed = none) :
    runPipeline env = Except.error PipelineError.jsonDecodeError ∧
    ∀ r path doc, runPipeline env ≠ Except.ok (r, path, doc) := by
  have herr : runPipeline env = Except.error PipelineError.jsonDecodeError := by
    simp only [runPipeline, step2, h]
  refine ⟨herr, fun r path doc hok => ?_⟩
  rw [herr] at hok
  exact Except.noConfusion hok

/-- Witness for C4 at the environment with unparseable selection output. -/
theorem C4_parse_failure_aborts_witness :
    runPipeline sampleEnvBad = Except.error PipelineError.jsonDecodeError :=
  (C4_parse_failure_aborts sampleEnvBad rfl).1

/-- C5: grouping preserves discovery order: each group of the resulting
mapping holds exactly the selected names the reverse index assigns to it, in
the order of the parsed selection, and a group that got no key owns none of
the selected names. -/
theorem C5_grouping_preserves_order (env : PipelineEnv)
    (r r' : GeneratorTaskRecorder) (names : List String)
    (hp : env.step2_parsed = some names) (h : step2 env r = Except.ok r') :
    (∀ p ∈ r'.selected_tools,
      p.2 = names.filter
        (fun n => dictGet (tool_to_toolkit_name env.toolkits_map) n == some p.1)) ∧
    (∀ g, g ∉ keysOf r'.selected_tools →
      names.filter
        (fun n => dictGet (tool_to_toolkit_name env.toolkits_map) n == some g) = []) := by
  obtain ⟨names2, st, hp2, hg, hr⟩ := step2_ok_shape env r r' h
  rw [hp] at hp2
  injection hp2 with hpe
  subst hpe
  subst hr
  constructor
  · intro p hpmem
    have hnd : (keysOf st).Nodup :=
      groupSelectedAux_nodup _ names [] st hg (by simp [keysOf])
    have hval := groupSelectedAux_ddGet _ names [] st hg p.1
    rw [ddGet_of_mem st p hpmem hnd] at hval
    simpa [ddGet] using hval
  · intro g hgk
    have hval := groupSelectedAux_ddGet _ names [] st hg g
    rw [ddGet_of_not_mem_keys st g hgk] at hval
    simp only [ddGet, List.nil_append] at hval
    exact hval.symm

/-- Witness for C5 at the sample environment. -/
theorem C5_grouping_preserves_order_witness :
    (("search", ["web_search", "web_search"]) :
        String × List String).2 =
      (["web_search", "web_search"] : List String).filter
        (fun n => dictGet (tool_to_toolkit_name sampleEnv.toolkits_map) n ==
          some "search") :=
  (C5_grouping_preserves_order sampleEnv (step1 sampleEnv {}) sampleRecorder2
    ["web_search", "web_search"] rfl rfl).1
    ("search", ["web_search", "web_search"]) (by simp [sampleRecorder2])

/-- C6: an unknown tool name in the parsed selection (absent from the reverse
index) aborts the run with the propagated lookup (`KeyError`) error —
no silent skip and no default group. -/
theorem C6_unknown_tool_aborts (env : PipelineEnv) (names : List String)
    (n : String) (hp : env.step2_parsed = some names) (hn : n ∈ names)
    (hl : dictGet (tool_to_toolkit_name env.toolkits_map) n = none) :
    runPipeline env = Except.error PipelineError.keyError := by
  have hg : groupSelected (tool_to_toolkit_name env.toolkits_map) names = none := by
    unfold groupSelected
    exact groupSelectedAux_none _ names [] n hn hl
  simp only [runPipeline, step2, hp, hg]

/-- Witness for C6 at the environment selecting an unknown tool. -/
theorem C6_unknown_tool_aborts_witness :
    runPipeline sampleEnvMissing = Except.error PipelineError.keyError :=
  C6_unknown_tool_aborts sampleEnvMissing ["nonexistent_tool"]
    "nonexistent_tool" rfl (by simp) rfl

/-- C7: `build` is idempotent: a second call performs no reconstruction and
leaves the state — in particular every agent field — exactly as the first
call left it. -/
theorem C7_build_idempotent (s : GeneratorAgents)
    (f f' : SimpleAgentRef × SimpleAgentRef × SimpleAgentRef × SimpleAgentRef) :
    build (build s f) f' = build s f ∧
    (build (build s f) f').agent_1 = (build s f).agent_1 ∧
    (build (build s f) f').agent_2 = (build s f).agent_2 ∧
    (build (build s f) f').agent_3 = (build s f).agent_3 ∧
    (build (build s f) f').agent_4 = (build s f).agent_4 := by
  have h : build (build s f) f' = build s f := by
    unfold build
    by_cases hs : s.initialized <;> simp [hs]
  exact ⟨h, by rw [h], by rw [h], by rw [h], by rw [h]⟩

/-- C9: `requirements` is written by step 1 and preserved by every later
pipeline operation: step 2 copies it, steps 3 and 4 leave it unchanged, and
the final record of a successful run still carries the step-1 output. -/
theorem C9_requirements_frame (env : PipelineEnv)
    (r rin rout r4 : GeneratorTaskRecorder) (path doc : String)
    (h2 : step2 env rin = Except.ok rout)
    (hrun : runPipeline env = Except.ok (r4, path, doc)) :
    (step1 env r).requirements = env.step1_output ∧
    rout.requirements = rin.requirements ∧
    (step3 env r).requirements = r.requirements ∧
    (step4 env r).requirements = r.requirements ∧
    r4.requirements = env.step1_output := by
  obtain ⟨names, st, hp, hg, hrout⟩ := step2_ok_shape env rin rout h2
  subst hrout
  refine ⟨rfl, rfl, rfl, rfl, ?_⟩
  simp only [runPipeline] at hrun
  cases hstep : step2 env (step1 env ({} : GeneratorTaskRecorder)) with
  | error e =>
    rw [hstep] at hrun
    exact Except.noConfusion hrun
  | ok r2 =>
    rw [hstep] at hrun
    simp only [Except.ok.injEq, Prod.mk.injEq] at hrun
    obtain ⟨names2, st2, _, _, hr2⟩ := step2_ok_shape env _ r2 hstep
    have hr4 : step4 env (step3 env r2) = r4 := hrun.1
    rw [← hr4, hr2]
    rfl

/-- Witness for C9 at the sample environment. -/
theorem C9_requirements_frame_witness :
    sampleRecorder4.requirements = sampleEnv.step1_output :=
  (C9_requirements_frame sampleEnv {} (step1 sampleEnv {}) sampleRecorder2
    sampleRecorder4 (format_config sampleRecorder4).1
    (format_config sampleRecorder4).2 rfl rfl).2.2.2.2

/-- C10: the grouping is multiplicity-preserving, not set-valued: a known
tool name selected k times appears k times under its owning group and zero
times under every other group. -/
theorem C10_grouping_multiplicity (env : PipelineEnv)
    (r r' : GeneratorTaskRecorder) (names : List String) (n g : String)
    (hp : env.step2_parsed = some names) (h : step2 env r = Except.ok r')
    (hown : dictGet (tool_to_toolkit_name env.toolkits_map) n = some g) :
    (ddGet r'.selected_tools g).count n = names.count n ∧
    ∀ g', g' ≠ g → (ddGet r'.selected_tools g').count n = 0 := by
  obtain ⟨names2, st, hp2, hg, hr⟩ := step2_ok_shape env r r' h
  rw [hp] at hp2
  injection hp2 with hpe
  subst hpe
  subst hr
  constructor
  · show (ddGet st g).count n = names.count n
    rw [groupSelectedAux_ddGet _ names [] st hg g]
    simp only [ddGet, List.nil_append]
    exact List.count_filter (by simp [hown])
  · intro g' hne
    show (ddGet st g').count n = 0
    rw [groupSelectedAux_ddGet _ names [] st hg g']
    simp only [ddGet, List.nil_append]
    apply List.count_eq_zero_of_not_mem
    intro hmem
    have hpn := List.of_mem_filter hmem
    rw [hown] at hpn
    simp only [beq_iff_eq, Option.some.injEq] at hpn
    exact hne hpn.symm

/-- Witness for C10 at the sample environment (the name is selected twice). -/
theorem C10_grouping_multiplicity_witness :
    (ddGet sampleRecorder2.selected_tools "search").count "web_search" =
      (["web_search", "web_search"] : List String).count "web_search" :=
  (C10_grouping_multiplicity sampleEnv (step1 sampleEnv {}) sampleRecorder2
    ["web_search", "web_search"] "web_search" "search" rfl rfl rfl).1

/-- C8: background mode: the record handed back at scheduling time is the
fresh one with the completion flag false; the flag is false at every snapshot
before the last, becomes true exactly once after all four steps and the
formatting, and no step's output field is observable in a snapshot before
that step has completed. -/
theorem C8_stream_snapshots (env : PipelineEnv) (r2 : GeneratorTaskRecorder)
    (h2 : step2 env (step1 env ({} : GeneratorTaskRecorder)) = Except.ok r2) :
    streamSnapshots env =
      [ ({} : GeneratorTaskRecorder), step1 env {}, r2, step3 env r2,
        step4 env (step3 env r2),
        { step4 env (step3 env r2) with is_complete := true } ] ∧
    (streamSnapshots env).map GeneratorTaskRecorder.is_complete =
      [false, false, false, false, false, true] ∧
    (streamSnapshots env).head? = some ({} : GeneratorTaskRecorder) ∧
    (streamSnapshots env).map GeneratorTaskRecorder.requirements =
      ["", env.step1_output, env.step1_output, env.step1_output,
        env.step1_output, env.step1_output] ∧
    (streamSnapshots env).map GeneratorTaskRecorder.selected_tools =
      [[], [], r2.selected_tools, r2.selected_tools, r2.selected_tools,
        r2.selected_tools] ∧
    (streamSnapshots env).map GeneratorTaskRecorder.instructions =
      ["", "", "", env.step3_output, env.step3_output, env.step3_output] ∧
    (streamSnapshots env).map GeneratorTaskRecorder.name =
      ["", "", "", "", (sanitizeName env.step4_output).1,
        (sanitizeName env.step4_output).1] := by
  obtain ⟨names, st, hp, hg, hr2⟩ := step2_ok_shape env _ r2 h2
  have hs : streamSnapshots env =
      [ ({} : GeneratorTaskRecorder), step1 env {}, r2, step3 env r2,
        step4 env (step3 env r2),
        { step4 env (step3 env r2) with is_complete := true } ] := by
    simp only [streamSnapshots, h2]
  subst hr2
  refine ⟨hs, ?_, ?_, ?_, ?_, ?_, ?_⟩ <;> rw [hs] <;> rfl

/-- Witness for C8 at the sample environment. -/
theorem C8_stream_snapshots_witness :
    (streamSnapshots sampleEnv).map GeneratorTaskRecorder.is_complete =
      [false, false, false, false, false, true] :=
  (C8_stream_snapshots sampleEnv sampleRecorder2 rfl).2.1

/-- C2: for a populated record with well-formed group keys and a sane name,
the rendered document has exactly one `agent.name` line; exactly one 2-space
indented include line per selected group and none for any other group; a
2-space indented config literal line for every selected group; every
instruction line indented 4 spaces; and the text is filed at
`<output_dir>/<name>.yaml`, which is the returned path. -/
theorem C2_format_config_document (rec : GeneratorTaskRecorder)
    (hkeys : ∀ p ∈ rec.selected_tools, isLowerName p.1)
    (hnodup : (keysOf rec.selected_tools).Nodup)
    (hnameNL : '\n' ∉ rec.name.data)
    (hnameSP : ' ' ∉ rec.name.data) :
    ((linesOfStr (format_config rec).2).count (agentNameLineOf rec.name).data = 1) ∧
    (∀ g : String,
      (linesOfStr (format_config rec).2).count (includeLineOf g).data =
        if g ∈ keysOf rec.selected_tools then 1 else 0) ∧
    (∀ p ∈ rec.selected_tools,
      (configLineOf p).data ∈ linesOfStr (format_config rec).2) ∧
    (∀ l ∈ pySplitNL rec.instructions,
      ("    " ++ l).data ∈ linesOfStr (format_config rec).2) ∧
    (format_config rec).1 = output_dir ++ "/" ++ rec.name ++ ".yaml" := by
  have hkeysNL : ∀ p ∈ rec.selected_tools, '\n' ∉ p.1.data := by
    intro p hp hm
    exact absurd (hkeys p hp '\n' hm) (by decide)
  have hlines := linesOf_format_config rec hnameNL hkeysNL
  rw [hlines]
  simp only [documentLines, List.map_append, map_data_slotLines, List.map_map,
    Function.comp_def]
  have hN : (agentNameLineOf rec.name).data =
      ' ' :: ' ' :: 'n' :: 'a' :: 'm' :: 'e' :: ':' :: ' ' :: rec.name.data := rfl
  have hI : ∀ g : String, (includeLineOf g).data =
      ' ' :: ' ' :: '-' :: ' ' :: '/' :: 't' :: 'o' :: 'o' :: 'l' :: 's' :: '/' ::
        (g.data ++ '@' :: 't' :: 'o' :: 'o' :: 'l' :: 'k' :: 'i' :: 't' :: 's' ::
          '.' :: g.data) := fun g => by
    simp [includeLineOf, String.data_append, List.append_assoc]
  have hC : ∀ p : String × List String, (configLineOf p).data =
      ' ' :: ' ' :: (p.1.data ++ ':' :: ' ' :: (jsonDumpsActivatedTools p.2).data) :=
    fun p => by
    simp [configLineOf, String.data_append, List.append_assoc]
  have hS : ∀ l : String, ("    " ++ l).data =
      ' ' :: ' ' :: ' ' :: ' ' :: l.data := fun l => rfl
  refine ⟨?_, ?_, ?_, ?_, rfl⟩
  · -- exactly one agent.name line
    have hNne : (agentNameLineOf rec.name).data ≠ [] := by rw [hN]; simp
    have cM0 : (List.map String.data ([""] : List String)).count
        (agentNameLineOf rec.name).data = 0 := by
      apply List.count_eq_zero_of_not_mem
      rw [hN]
      simp
    have cM1 : (List.map String.data
        (["# @package _global_", "defaults:", "  - /model/base@model"] : List String)).count
        (agentNameLineOf rec.name).data = 0 := by
      apply List.count_eq_zero_of_not_mem
      rw [hN]
      simp
    have cS1 : (slotLinesData (rec.selected_tools.map
        (fun p => (includeLineOf p.1).data))).count (agentNameLineOf rec.name).data = 0 := by
      rw [count_slotLinesData _ _ hNne]
      apply List.count_eq_zero_of_not_mem
      intro hm
      obtain ⟨p, hp, he⟩ := List.mem_map.mp hm
      rw [hI p.1, hN] at he
      simp at he
    have cM2 : (List.map String.data
        (["  - _self_", "", "toolkits:"] : List String)).count
        (agentNameLineOf rec.name).data = 0 := by
      apply List.count_eq_zero_of_not_mem
      rw [hN]
      simp
    have cS2 : (slotLinesData (rec.selected_tools.map
        (fun p => (configLineOf p).data))).count (agentNameLineOf rec.name).data = 0 := by
      rw [count_slotLinesData _ _ hNne]
      apply List.count_eq_zero_of_not_mem
      intro hm
      obtain ⟨p, hp, he⟩ := List.mem_map.mp hm
      rw [hC p, hN] at he
      injection he with he1 he
      injection he with he1 he
      obtain ⟨hk, hr⟩ := append_sep_inj ':' p.1.data "name".data
        (' ' :: (jsonDumpsActivatedTools p.2).data) (' ' :: rec.name.data)
        (by decide) (hkeys p hp) (by decide) he
      injection hr with hr1 hr
      have hsp := jsonDumpsActivatedTools_has_space p.2
      rw [hr] at hsp
      exact hnameSP hsp
    have cM3 : (List.map String.data
        (["", "agent:", agentNameLineOf rec.name, "  instructions: |"] : List String)).count
        (agentNameLineOf rec.name).data = 1 := by
      simp only [List.map_cons, List.map_nil, List.count_cons, List.count_nil,
        beq_iff_eq]
      rw [hN]
      simp
    have cI : ((pySplitNL rec.instructions).map
        (fun l => ("    " ++ l).data)).count (agentNameLineOf rec.name).data = 0 := by
      apply List.count_eq_zero_of_not_mem
      intro hm
      obtain ⟨m, hmm, he⟩ := List.mem_map.mp hm
      rw [hS m, hN] at he
      simp at he
    have cM4 : (List.map String.data ([""] : List String)).count
        (agentNameLineOf rec.name).data = 0 := by
      apply List.count_eq_zero_of_not_mem
      rw [hN]
      simp
    simp only [List.count_append, cM0, cM1, cS1, cM2, cS2, cM3, cI, cM4]
  · -- exactly one include line per key and none for other groups
    intro g
    have hIne : (includeLineOf g).data ≠ [] := by rw [hI g]; simp
    have cM0 : (List.map String.data ([""] : List String)).count
        (includeLineOf g).data = 0 := by
      apply List.count_eq_zero_of_not_mem
      rw [hI g]
      simp
    have cM1 : (List.map String.data
        (["# @package _global_", "defaults:", "  - /model/base@model"] : List String)).count
        (includeLineOf g).data = 0 := by
      apply List.count_eq_zero_of_not_mem
      rw [hI g]
      simp
    have cS1 : (slotLinesData (rec.selected_tools.map
        (fun p => (includeLineOf p.1).data))).count (includeLineOf g).data =
        if g ∈ keysOf rec.selected_tools then 1 else 0 := by
      rw [count_slotLinesData _ _ hIne]
      have hmaps : rec.selected_tools.map (fun p => (includeLineOf p.1).data) =
          (keysOf rec.selected_tools).map (fun k => (includeLineOf k).data) := by
        simp [keysOf, List.map_map, Function.comp_def]
      rw [hmaps]
      rw [count_map_includeLineOf (keysOf rec.selected_tools) g]
      exact count_keys_of_nodup (keysOf rec.selected_tools) g hnodup
    have cM2 : (List.map String.data
        (["  - _self_", "", "toolkits:"] : List String)).count
        (includeLineOf g).data = 0 := by
      apply List.count_eq_zero_of_not_mem
      rw [hI g]
      simp
    have cS2 : (slotLinesData (rec.selected_tools.map
        (fun p => (configLineOf p).data))).count (includeLineOf g).data = 0 := by
      rw [count_slotLinesData _ _ hIne]
      apply List.count_eq_zero_of_not_mem
      intro hm
      obtain ⟨p, hp, he⟩ := List.mem_map.mp hm
      rw [hC p, hI g] at he
      injection he with he1 he
      injection he with he1 he
      cases hpd : p.1.data with
      | nil =>
        rw [hpd] at he
        simp at he
      | cons c cs =>
        rw [hpd] at he
        simp only [List.cons_append, List.cons.injEq] at he
        have hcl := hkeys p hp c (by rw [hpd]; exact List.mem_cons_self c cs)
        rw [he.1] at hcl
        exact absurd hcl (by decide)
    have cM3 : (List.map String.data
        (["", "agent:", agentNameLineOf rec.name, "  instructions: |"] : List String)).count
        (includeLineOf g).data = 0 := by
      apply List.count_eq_zero_of_not_mem
      intro hm
      simp only [List.map_cons, List.map_nil, List.mem_cons,
        List.not_mem_nil, or_false] at hm
      rcases hm with hm | hm | hm | hm
      · rw [hI g] at hm; simp at hm
      · rw [hI g] at hm; simp at hm
      · rw [hI g, hN] at hm; simp at hm
      · rw [hI g] at hm; simp at hm
    have cI : ((pySplitNL rec.instructions).map
        (fun l => ("    " ++ l).data)).count (includeLineOf g).data = 0 := by
      apply List.count_eq_zero_of_not_mem
      intro hm
      obtain ⟨m, hmm, he⟩ := List.mem_map.mp hm
      rw [hS m, hI g] at he
      simp at he
    have cM4 : (List.map String.data ([""] : List String)).count
        (includeLineOf g).data = 0 := by
      apply List.count_eq_zero_of_not_mem
      rw [hI g]
      simp
    simp only [List.count_append, cM0, cM1, cS1, cM2, cS2, cM3, cI, cM4,
      Nat.zero_add, Nat.add_zero]
  · -- each selected group's config literal line is present
    intro p hp
    have hmem : (configLineOf p).data ∈ slotLinesData (rec.selected_tools.map
        (fun q => (configLineOf q).data)) := by
      rw [slotLinesData_of_ne_nil]
      · exact List.mem_map.mpr ⟨p, hp, rfl⟩
      · intro hnil
        rw [List.map_eq_nil_iff] at hnil
        rw [hnil] at hp
        cases hp
    exact List.mem_append.mpr (Or.inl (List.mem_append.mpr (Or.inl
      (List.mem_append.mpr (Or.inl (List.mem_append.mpr (Or.inr hmem)))))))
  · -- each instruction line is present, 4-space indented
    intro l hl
    have hmem : ("    " ++ l).data ∈ (pySplitNL rec.instructions).map
        (fun m => ("    " ++ m).data) :=
      List.mem_map.mpr ⟨l, hl, rfl⟩
    exact List.mem_append.mpr (Or.inl (List.mem_append.mpr (Or.inr hmem)))

/-- Witness for C2 at the record of the sample run. -/
theorem C2_format_config_document_witness :
    ((linesOfStr (format_config sampleRecorder4).2).count
      (agentNameLineOf sampleRecorder4.name).data = 1) ∧
    (format_config sampleRecorder4).1 =
      output_dir ++ "/" ++ sampleRecorder4.name ++ ".yaml" :=
  ⟨(C2_format_config_document sampleRecorder4 (by decide) (by decide)
      (by decide) (by decide)).1,
    (C2_format_config_document sampleRecorder4 (by decide) (by decide)
      (by decide) (by decide)).2.2.2.2⟩

end SimpleAgentGen
